import Mathlib

/-!
Verification of `src/action/version_checker.py` (solana-agave-version-updater).

Strings are modelled as `List Char`.  The Python string primitives the script
uses (`str.replace`, the `in` substring test, `str.strip`, `str.lower`,
`int(...)`) are embedded below as executable Lean functions.  The PyYAML
library boundary (`yaml.safe_load_all`) is an oracle parameter supplied to the
functions that call it; everything the repository itself implements (document
merging, key lookup, pattern substitution, validation, the orchestration and
error wrapping) is translated directly from the source.
-/

namespace VersionUpdater

/-- Python strings, modelled as lists of characters. -/
abbrev Str := List Char

/-- Convenience: a Lean string literal as a `Str`. -/
def lit (s : String) : Str := s.data

/-- Python `p in s` (substring containment test), as used at
`version_checker.py:240` (`if pattern in content`). -/
def occursIn (p : Str) (s : Str) : Bool :=
  p.isPrefixOf s ||
    match s with
    | [] => false
    | _ :: rest => occursIn p rest

/-- Worker for `pyReplace`: scan the text one character at a time; a positive
`skip` means that many characters still belong to an already-replaced match
and are dropped.  Structural in the scanned list, so the kernel can run it. -/
def replaceGo (p r : Str) : Str → Nat → Str
  | [], _ => []
  | _ :: rest, skip + 1 => replaceGo p r rest skip
  | c :: rest, 0 =>
    if p.isPrefixOf (c :: rest) then r ++ replaceGo p r rest (p.length - 1)
    else c :: replaceGo p r rest 0

/-- Python `s.replace(p, r)`: replace every non-overlapping occurrence of `p`
in `s`, scanning left to right (used at `version_checker.py:243-247` and, with
`p = "v"`, at `version_checker.py:268`).  For the empty pattern (never used by
the script) we return `s` unchanged. -/
def pyReplace (s p r : Str) : Str :=
  if p.isEmpty then s else replaceGo p r s 0

/-- The greedy decomposition of `s` at the occurrences of `p`: the segments
between the matches that `pyReplace` replaces.  Proof device used to state
what the substitution preserves. -/
def splitGo (p : Str) : Str → Nat → List Str
  | [], _ => [[]]
  | _ :: rest, skip + 1 => splitGo p rest skip
  | c :: rest, 0 =>
    if p.isPrefixOf (c :: rest) then [] :: splitGo p rest (p.length - 1)
    else
      match splitGo p rest 0 with
      | [] => [[c]]
      | t :: ts => (c :: t) :: ts

/-- Join a list of segments with a separator between consecutive segments. -/
def joinWith (sep : Str) : List Str → Str
  | [] => []
  | [t] => t
  | t :: ts => t ++ sep ++ joinWith sep ts

/-- The ASCII whitespace characters Python's `str.strip()` removes (we do not
model the further Unicode whitespace, which never appears in the inputs the
claims range over). -/
def isPySpace (c : Char) : Bool :=
  c = ' ' || c = '\t' || c = '\n' || c = '\x0d' || c = '\x0b' || c = '\x0c'

/-- Python `s.strip()`: drop leading and trailing whitespace. -/
def pyStrip (s : Str) : Str :=
  ((s.dropWhile isPySpace).reverse.dropWhile isPySpace).reverse

/-- Python `s.lower()` for the ASCII range (the network names and the
characters the script compares with are all ASCII). -/
def lowerStr (s : Str) : Str := s.map Char.toLower

/-- Value of a nonempty all-digit string. -/
def digitsVal (ds : Str) : Int :=
  ds.foldl (fun a c => a * 10 + (Int.ofNat (c.toNat - 48))) 0

/-- Python `int(s)` on a decimal literal: optional surrounding whitespace,
optional sign, then at least one ASCII digit; anything else raises
`ValueError`, modelled as `none`.  (Python additionally allows underscore
separators between digits; none of the claims depend on that corner.) -/
def pyInt (s : Str) : Option Int :=
  let t := pyStrip s
  match t with
  | '+' :: ds => if ds ≠ [] && ds.all Char.isDigit then some (digitsVal ds) else none
  | '-' :: ds => if ds ≠ [] && ds.all Char.isDigit then some (-(digitsVal ds)) else none
  | ds => if ds ≠ [] && ds.all Char.isDigit then some (digitsVal ds) else none

/-- Python exception classes appearing in `version_checker.py`. -/
inductive ErrKind where
  | valueError
  | fileNotFoundError
  | keyError
  | typeError
  | attributeError
  deriving DecidableEq, Repr

/-- A raised Python exception: its class and its message (`str(e)`). -/
structure PyErr where
  kind : ErrKind
  msg : Str
  deriving DecidableEq, Repr

/-- Embedding of `SolanaNetwork` (version_checker.py:13-16). -/
inductive SolanaNetwork where
  | mainnet
  | testnet
  | devnet
  deriving DecidableEq, Repr

namespace SolanaNetwork

/-- Embedding of `SolanaNetwork.from_str` (version_checker.py:18-28): lowercase the input,
accept the three network names ("mainnet" also as "mainnet-beta"), and raise
`ValueError` naming the (lowercased) value otherwise. -/
def from_str (value : Str) : Except PyErr SolanaNetwork :=
  let v := lowerStr value
  if v = lit "mainnet" || v = lit "mainnet-beta" then .ok .mainnet
  else if v = lit "testnet" then .ok .testnet
  else if v = lit "devnet" then .ok .devnet
  else .error ⟨.valueError,
    lit "Invalid network: " ++ v ++ lit ". Must be one of: mainnet, testnet, devnet"⟩

/-- Embedding of `SolanaNetwork.get_rpc_url` (version_checker.py:30-39). -/
def get_rpc_url : SolanaNetwork → Str
  | .mainnet => lit "https://api.mainnet-beta.solana.com"
  | .testnet => lit "https://api.testnet.solana.com"
  | .devnet => lit "https://api.devnet.solana.com"

end SolanaNetwork

/-- Embedding of `VersionInfo` (version_checker.py:41-48).  The constructor normalises the
two maximum fields: an empty or `"-"` value becomes `None`.  The minimum
fields are stored as given. -/
structure VersionInfo where
  epoch : Int
  agave_min : Str
  agave_max : Option Str
  firedancer_min : Str
  firedancer_max : Option Str
  deriving DecidableEq, Repr

/-- The `__init__` normalisation of `VersionInfo` (version_checker.py:46,48):
`x if x and x != "-" else None`. -/
def normMax (s : Str) : Option Str :=
  if s ≠ [] && s ≠ lit "-" then some s else none

/-- Constructor call `VersionInfo(epoch, agave_min, agave_max, firedancer_min, firedancer_max)`. -/
def mkVersionInfo (epoch : Int) (amin amax fmin fmax : Str) : VersionInfo :=
  ⟨epoch, amin, normMax amax, fmin, normMax fmax⟩

/-- One HTML `<table>` as BeautifulSoup hands it to the script: the raw texts
of its `<th>` cells and, per `<tr>` in document order (header row included),
the raw texts of that row's `<td>` cells.  The HTML parsing itself is
library work (`bs4`); this structure is its output. -/
structure HtmlTable where
  headers : List Str
  rows : List (List Str)

/-- Body of the row loop (version_checker.py:136-154): need at least five
cells, parse the epoch cell as an integer (a failure is caught and the row
skipped), strip the four version cells. -/
def parseRow (cells : List Str) : Option VersionInfo :=
  if cells.length ≥ 5 then
    match pyInt (pyStrip (cells.getD 0 [])) with
    | none => none
    | some e =>
      some (mkVersionInfo e (pyStrip (cells.getD 1 [])) (pyStrip (cells.getD 2 []))
        (pyStrip (cells.getD 3 [])) (pyStrip (cells.getD 4 [])))
  else none

/-- Ordering of table rows by epoch, the sort key of version_checker.py:157. -/
def epochLE (a b : VersionInfo) : Prop := a.epoch ≤ b.epoch

instance : DecidableRel epochLE := fun a b => inferInstanceAs (Decidable (a.epoch ≤ b.epoch))

instance : IsTotal VersionInfo epochLE := ⟨fun a b => Int.le_total a.epoch b.epoch⟩

instance : IsTrans VersionInfo epochLE := ⟨fun _ _ _ hab hbc => le_trans hab hbc⟩

namespace VersionChecker

/-- Embedding of `VersionChecker.parse_version_table` (version_checker.py:121-162): from
every table whose (stripped) headers include both "Epoch" and "Agave Min.",
collect the parseable body rows (the first `<tr>` is skipped as the header
row), then sort ascending by epoch.  Python's `list.sort` is a stable
ascending sort, which is a uniquely determined function; `insertionSort`
realises it. -/
def parse_version_table (tables : List HtmlTable) : List VersionInfo :=
  let collected := (tables.map (fun t =>
    if (lit "Epoch") ∈ t.headers.map pyStrip && (lit "Agave Min.") ∈ t.headers.map pyStrip then
      (t.rows.drop 1).filterMap parseRow
    else [])).flatten
  collected.insertionSort epochLE

/-- Python `max(table, key=lambda x: x.epoch)` (version_checker.py:192):
first element with the maximal key; `max` of an empty list raises, modelled
as `none` (the caller has already excluded the empty table). -/
def pyMaxByEpoch : List VersionInfo → Option VersionInfo
  | [] => none
  | v :: vs => some (vs.foldl (fun acc x => if acc.epoch < x.epoch then x else acc) v)

/-- The truthiness test `if self.current_epoch:` (version_checker.py:182):
`None` and `0` are falsy, every other integer truthy. -/
def epochTruthy : Option Int → Bool
  | none => false
  | some e => e != 0

/-- The selection logic of version_checker.py:181-193 on an already parsed,
nonempty table. -/
def selectRequiredVersion (table : List VersionInfo) (current_epoch : Option Int) : Option Str :=
  if epochTruthy current_epoch then
    match current_epoch with
    | some e => (table.reverse.find? (fun vi => decide (vi.epoch ≤ e))).map VersionInfo.agave_min
    | none => none
  else
    (pyMaxByEpoch table).map VersionInfo.agave_min

/-- The mutable attributes of a `VersionChecker` that
`get_required_version` touches. -/
structure CheckerState where
  version_table : List VersionInfo
  current_epoch : Option Int
  deriving Repr

/-- Embedding of `VersionChecker.get_required_version` (version_checker.py:164-197), its
pure core: the HTTP fetch is abstracted by handing the function the tables of
the fetched page (a fetch or parse failure yields no table and the `none`
branch).  It stores the parsed table in `self.version_table` and then selects
from it without further state change. -/
def get_required_version (fetchedTables : List HtmlTable) (st : CheckerState) :
    Option Str × CheckerState :=
  let table := parse_version_table fetchedTables
  let st' := { st with version_table := table }
  if table.isEmpty then (none, st')
  else (selectRequiredVersion table st.current_epoch, st')

end VersionChecker

/-- YAML values as `yaml.safe_load_all` returns them, restricted to the
shapes relevant here (null, strings, mappings, sequences).  Scalars the YAML
parser would type as numbers or booleans are not modelled; a version tag such
as "v2.1.13" parses as a string. -/
inductive YVal where
  | ynull
  | ystr (s : Str)
  | ymap (entries : List (Str × YVal))
  | yseq (items : List YVal)

/-- Python truthiness of a loaded document (`if doc:`, version_checker.py:210). -/
def truthy : YVal → Bool
  | .ynull => false
  | .ystr s => !s.isEmpty
  | .ymap es => !es.isEmpty
  | .yseq l => !l.isEmpty

/-- Dictionary lookup. -/
def lookupKey : List (Str × YVal) → Str → Option YVal
  | [], _ => none
  | (k, v) :: rest, key => if k = key then some v else lookupKey rest key

/-- Python `dict.update`: keys of the argument overwrite, fresh keys are
added.  (Python keeps an overwritten key at its old position; this model moves
it next to the fresh keys, which no lookup can distinguish because keys are
unique.) -/
def dictUpdate (m d : List (Str × YVal)) : List (Str × YVal) :=
  m.filter (fun e => d.all (fun e2 => e2.1 != e.1)) ++ d

/-- The merge loop of `get_current_version` (version_checker.py:208-211):
`for doc in documents: if doc: merged_data.update(doc)`.  `dict.update` with a
truthy non-mapping argument raises (text stands in for CPython's message);
the script does not catch that there. -/
def mergeDocs : List YVal → List (Str × YVal) → Except PyErr (List (Str × YVal))
  | [], acc => .ok acc
  | d :: ds, acc =>
    if truthy d then
      match d with
      | .ymap es => mergeDocs ds (dictUpdate acc es)
      | _ => .error ⟨.valueError, lit "dictionary update sequence error"⟩
    else mergeDocs ds acc

/-- Python `value[key]` with a string key (version_checker.py:216):
`KeyError` on a mapping without the key (whose `str` is the quoted key),
`TypeError` when subscripting a non-mapping. -/
def subscript (v : YVal) (key : Str) : Except PyErr YVal :=
  match v with
  | .ymap es =>
    match lookupKey es key with
    | some w => .ok w
    | none => .error ⟨.keyError, lit "'" ++ key ++ lit "'"⟩
  | .ystr _ => .error ⟨.typeError, lit "string indices must be integers"⟩
  | .yseq _ => .error ⟨.typeError, lit "list indices must be integers or slices, not str"⟩
  | .ynull => .error ⟨.typeError, lit "NoneType object is not subscriptable"⟩

namespace VersionChecker

/-- Embedding of `VersionChecker.get_current_version` (version_checker.py:199-220).  The
file is `none` when absent; `loadAll` is the `yaml.safe_load_all` oracle,
whose error value carries the `yaml.YAMLError` message.  A `KeyError` from the
nested lookup is re-raised as `ValueError("Required key not found in YAML:
...")`, a `yaml.YAMLError` as `ValueError("Error parsing YAML file: ...")`;
other exceptions propagate unchanged. -/
def get_current_version (loadAll : Str → Except Str (List YVal)) (file : Option Str) :
    Except PyErr YVal :=
  match file with
  | none => .error ⟨.fileNotFoundError, lit "Could not find YAML file at <yaml_path>"⟩
  | some content =>
    match loadAll content with
    | .error e => .error ⟨.valueError, lit "Error parsing YAML file: " ++ e⟩
    | .ok docs =>
      match mergeDocs docs [] with
      | .error e => .error e
      | .ok merged =>
        if merged.isEmpty then .error ⟨.valueError, lit "No valid YAML content found"⟩
        else
          match (do
            let a ← subscript (.ymap merged) (lit "spec")
            let b ← subscript a (lit "values")
            let c ← subscript b (lit "image")
            subscript c (lit "tag") : Except PyErr YVal) with
          | .error e =>
            if e.kind = .keyError then
              .error ⟨.valueError, lit "Required key not found in YAML: " ++ e.msg⟩
            else .error e
          | .ok v => .ok v

/-- Python `str()` as the f-strings at version_checker.py:233-235 apply it to
the current version value; for non-string shapes only the fact that some text
is produced matters to the claims. -/
def pyStr : YVal → Str
  | .ystr s => s
  | .ynull => lit "None"
  | .ymap _ => lit "<dict repr>"
  | .yseq _ => lit "<list repr>"

/-- The three candidate patterns of version_checker.py:232-236, in order:
bare, double-quoted, single-quoted. -/
def tagPatterns (current : Str) : List Str :=
  [lit "tag: " ++ current,
   lit "tag: \"" ++ current ++ lit "\"",
   lit "tag: '" ++ current ++ lit "'"]

/-- The replacement chosen for a matched pattern (version_checker.py:241-247):
double-quoted if the pattern text holds a double quote, else single-quoted if
it holds a single quote, else bare. -/
def styleReplacement (pattern : Str) (new_version : Str) : Str :=
  if '"' ∈ pattern then lit "tag: \"v" ++ new_version ++ lit "\""
  else if '\'' ∈ pattern then lit "tag: 'v" ++ new_version ++ lit "'"
  else lit "tag: v" ++ new_version

/-- The substitution loop of `update_yaml_version`
(version_checker.py:238-248): take the first pattern occurring in the content
and replace every occurrence of it (Python `str.replace` replaces all, and
the loop `break`s after the first matching pattern); no match leaves the
content unchanged. -/
def applyPatterns (current new_version content : Str) : Str :=
  match (tagPatterns current).find? (fun p => occursIn p content) with
  | none => content
  | some p => pyReplace content p (styleReplacement p new_version)

/-- Embedding of `VersionChecker.update_yaml_version` (version_checker.py:222-260) as a
transformer of the file state: read, determine the current version,
substitute, re-validate the result with `yaml.safe_load_all`, and only then
write.  Every exception escaping the body is re-raised as
`ValueError("Error updating YAML file: ...")` (version_checker.py:259-260);
the write is the last step, so a failing call leaves the file untouched.
The absent-file message stands in for CPython's `[Errno 2]` text. -/
def update_yaml_version (loadAll : Str → Except Str (List YVal)) (new_version : Str)
    (file : Option Str) : Except PyErr Unit × Option Str :=
  let wrap : PyErr → Except PyErr Unit × Option Str := fun e =>
    (.error ⟨.valueError, lit "Error updating YAML file: " ++ e.msg⟩, file)
  match file with
  | none => wrap ⟨.fileNotFoundError, lit "No such file or directory"⟩
  | some content =>
    match get_current_version loadAll file with
    | .error e => wrap e
    | .ok current =>
      let updated := applyPatterns (pyStr current) new_version content
      match loadAll updated with
      | .error e => wrap ⟨.valueError, lit "Generated invalid YAML: " ++ e⟩
      | .ok _ => (.ok (), some updated)

/-- Embedding of `VersionChecker.check_and_update` (version_checker.py:262-273).  The
version-requirement fetch is represented by the fetched page's tables, as in
`get_required_version`.  Result: `(required, current, changed)`. -/
def check_and_update (loadAll : Str → Except Str (List YVal)) (fetchedTables : List HtmlTable)
    (st : CheckerState) (file : Option Str) :
    Except PyErr (Str × Str × Bool) × Option Str × CheckerState :=
  match get_required_version fetchedTables st with
  | (required, st') =>
    match required with
    | none => (.error ⟨.valueError, lit "Could not find required version information"⟩, file, st')
    | some r =>
      if r.isEmpty then
        (.error ⟨.valueError, lit "Could not find required version information"⟩, file, st')
      else
        match get_current_version loadAll file with
        | .error e => (.error e, file, st')
        | .ok tag =>
          match tag with
          | .ystr s =>
            let current := pyReplace s (lit "v") []
            if current = r then (.ok (r, current, false), file, st')
            else
              match update_yaml_version loadAll r file with
              | (.error e, f') => (.error e, f', st')
              | (.ok _, f') => (.ok (r, current, true), f', st')
          | _ =>
            (.error ⟨.attributeError, lit "object has no attribute replace"⟩, file, st')

end VersionChecker

/-! ### Concrete fixtures

Explicit inputs used to instantiate the theorems: configuration file texts,
the documents a YAML parser yields for them (each oracle below is the
behaviour of `yaml.safe_load_all` on the handful of concrete texts a run
touches, checkable against YAML semantics by hand), and criteria-page
tables. -/

/-- Modelled from the spec: "read current version, strip a leading v" — the
claimed (not implemented) way `check_and_update` derives the current version.
For comparison with the code's `.replace("v", "")`. -/
def specStripLeadingV : Str → Str
  | 'v' :: rest => rest
  | s => s

/-- A single-document config whose image tag is `t`:
`spec: / values: / image: / tag: <t>`. -/
def tagDoc (t : Str) : YVal :=
  .ymap [(lit "spec", .ymap [(lit "values", .ymap [(lit "image",
    .ymap [(lit "tag", .ystr t)])])])]

/-- The delegation-criteria table of the claim's example: epochs 100/200/300
with minima a/b/c (header row first, five columns per body row). -/
def exampleCriteria : HtmlTable :=
  ⟨[lit "Epoch", lit "Agave Min.", lit "Agave Max.", lit "Firedancer Min.", lit "Firedancer Max."],
   [[],
    [lit "100", lit "a", lit "-", lit "0.1", lit "-"],
    [lit "200", lit "b", lit "-", lit "0.1", lit "-"],
    [lit "300", lit "c", lit "-", lit "0.1", lit "-"]]⟩

/-- A one-row criteria table: epoch 100, minimum "2.0.0". -/
def oneRowCriteria : HtmlTable :=
  ⟨[lit "Epoch", lit "Agave Min."],
   [[], [lit "100", lit "2.0.0", lit "-", lit "0.1", lit "-"]]⟩

/-- A one-row criteria table whose minimum is "1.0-dev". -/
def devCriteria : HtmlTable :=
  ⟨[lit "Epoch", lit "Agave Min."],
   [[], [lit "1", lit "1.0-dev", lit "-", lit "0.1", lit "-"]]⟩

/-- A one-row criteria table whose minimum is "2.1.13". -/
def v2113Criteria : HtmlTable :=
  ⟨[lit "Epoch", lit "Agave Min."],
   [[], [lit "1", lit "2.1.13", lit "-", lit "0.1", lit "-"]]⟩

/-- Config whose tag is `v1.0-dev` (a "v" occurs in a non-leading position). -/
def contentDev : Str := lit "spec:\n  values:\n    image:\n      tag: v1.0-dev\n"

/-- Behaviour of `yaml.safe_load_all` on `contentDev`. -/
def loadAllDev (s : Str) : Except Str (List YVal) :=
  if s = contentDev then .ok [tagDoc (lit "v1.0-dev")] else .error (lit "parse error")

/-- Config whose tag is `v2.1.13`. -/
def content2113 : Str := lit "spec:\n  values:\n    image:\n      tag: v2.1.13\n"

/-- Behaviour of `yaml.safe_load_all` on `content2113`. -/
def loadAll2113 (s : Str) : Except Str (List YVal) :=
  if s = content2113 then .ok [tagDoc (lit "v2.1.13")] else .error (lit "parse error")

/-- Two documents, each holding the raw text `tag: 1.0` (the second document
under a different top-level key, so the merged lookup finds the first). -/
def contentTwoTags : Str :=
  lit "spec:\n  values:\n    image:\n      tag: 1.0\n---\nextra:\n  image:\n    tag: 1.0\n"

/-- Text `contentTwoTags` with BOTH occurrences substituted — what the code
produces. -/
def contentTwoTagsBoth : Str :=
  lit "spec:\n  values:\n    image:\n      tag: v2.0\n---\nextra:\n  image:\n    tag: v2.0\n"

/-- Text `contentTwoTags` with only the FIRST occurrence substituted — what the
claim asserts the code produces. -/
def contentTwoTagsFirstOnly : Str :=
  lit "spec:\n  values:\n    image:\n      tag: v2.0\n---\nextra:\n  image:\n    tag: 1.0\n"

/-- The second document of `contentTwoTags`, with tag `t`. -/
def extraDoc (t : Str) : YVal :=
  .ymap [(lit "extra", .ymap [(lit "image", .ymap [(lit "tag", .ystr t)])])]

/-- Behaviour of `yaml.safe_load_all` on the texts of the two-occurrence run. -/
def loadAllTwoTags (s : Str) : Except Str (List YVal) :=
  if s = contentTwoTags then .ok [tagDoc (lit "1.0"), extraDoc (lit "1.0")]
  else if s = contentTwoTagsBoth then .ok [tagDoc (lit "v2.0"), extraDoc (lit "v2.0")]
  else .error (lit "parse error")

/-- Plain single-document config with tag `1.0`. -/
def contentPlain : Str := lit "spec:\n  values:\n    image:\n      tag: 1.0\n"

/-- Text `contentPlain` after substituting version `2.0`. -/
def contentPlainV2 : Str := lit "spec:\n  values:\n    image:\n      tag: v2.0\n"

/-- An oracle that accepts only the original text: the substituted text fails
re-validation (message stands in for a `yaml.YAMLError`). -/
def loadAllStrict (s : Str) : Except Str (List YVal) :=
  if s = contentPlain then .ok [tagDoc (lit "1.0")]
  else .error (lit "mapping values are not allowed here")

/-- An oracle accepting the original and the substituted text. -/
def loadAllPlain (s : Str) : Except Str (List YVal) :=
  if s = contentPlain then .ok [tagDoc (lit "1.0")]
  else if s = contentPlainV2 then .ok [tagDoc (lit "v2.0")]
  else .error (lit "parse error")

/-- Config where the tag value is `1.0` but the raw text carries extra blanks
(`tag:   1.0`), so none of the three substitution patterns occurs. -/
def contentSpaced : Str := lit "spec:\n  values:\n    image:\n      tag:   1.0\n"

/-- Behaviour of `yaml.safe_load_all` on `contentSpaced`. -/
def loadAllSpaced (s : Str) : Except Str (List YVal) :=
  if s = contentSpaced then .ok [tagDoc (lit "1.0")] else .error (lit "parse error")

/-- Config whose tag field is double-quoted while a decoy `tag: 1.0` text sits
in a single-quoted scalar under another key. -/
def contentDecoy : Str :=
  lit "spec:\n  values:\n    image:\n      tag: \"1.0\"\nnote: 'tag: 1.0'\n"

/-- Text `contentDecoy` after the first update call: only the decoy matched the
bare pattern and was rewritten; the tag field still reads `1.0`. -/
def contentDecoy1 : Str :=
  lit "spec:\n  values:\n    image:\n      tag: \"1.0\"\nnote: 'tag: v2.0'\n"

/-- Text `contentDecoy1` after the second update call: now the double-quoted
pattern matched the real tag field. -/
def contentDecoy2 : Str :=
  lit "spec:\n  values:\n    image:\n      tag: \"v2.0\"\nnote: 'tag: v2.0'\n"

/-- The document of the decoy configs: image tag `t`, key `note` holding `n`. -/
def decoyDoc (t n : Str) : YVal :=
  .ymap [(lit "spec", .ymap [(lit "values", .ymap [(lit "image",
    .ymap [(lit "tag", .ystr t)])])]), (lit "note", .ystr n)]

/-- Behaviour of `yaml.safe_load_all` on the three texts of the decoy run. -/
def loadAllDecoy (s : Str) : Except Str (List YVal) :=
  if s = contentDecoy then .ok [decoyDoc (lit "1.0") (lit "tag: 1.0")]
  else if s = contentDecoy1 then .ok [decoyDoc (lit "1.0") (lit "tag: v2.0")]
  else if s = contentDecoy2 then .ok [decoyDoc (lit "v2.0") (lit "tag: v2.0")]
  else .error (lit "parse error")

/-! ### Properties of the string primitives -/

theorem isPrefixOf_eq_true_iff {p s : Str} : p.isPrefixOf s = true ↔ ∃ t, p ++ t = s := by
  induction p generalizing s with
  | nil => simp [List.isPrefixOf]
  | cons c cs ih =>
    cases s with
    | nil => simp [List.isPrefixOf]
    | cons d ds =>
      simp only [List.isPrefixOf, Bool.and_eq_true, beq_iff_eq, ih, List.cons_append,
        List.cons.injEq]
      constructor
      · rintro ⟨rfl, t, rfl⟩
        exact ⟨t, rfl, rfl⟩
      · rintro ⟨t, rfl, rfl⟩
        exact ⟨rfl, t, rfl⟩

theorem occursIn_eq_true_iff {p s : Str} : occursIn p s = true ↔ ∃ a b, a ++ (p ++ b) = s := by
  induction s with
  | nil =>
    simp only [occursIn, Bool.or_eq_true, isPrefixOf_eq_true_iff]
    constructor
    · rintro (⟨t, ht⟩ | h)
      · rcases List.append_eq_nil.mp ht with ⟨rfl, rfl⟩
        exact ⟨[], [], rfl⟩
      · cases h
    · rintro ⟨a, b, hab⟩
      rcases List.append_eq_nil.mp hab with ⟨rfl, h2⟩
      rcases List.append_eq_nil.mp h2 with ⟨rfl, rfl⟩
      exact Or.inl ⟨[], rfl⟩
  | cons c rest ih =>
    simp only [occursIn, Bool.or_eq_true, isPrefixOf_eq_true_iff, ih]
    constructor
    · rintro (⟨t, ht⟩ | ⟨a, b, hab⟩)
      · exact ⟨[], t, by simpa using ht⟩
      · exact ⟨c :: a, b, by simp [hab]⟩
    · rintro ⟨a, b, hab⟩
      cases a with
      | nil => exact Or.inl ⟨b, by simpa using hab⟩
      | cons a0 as =>
        rw [List.cons_append] at hab
        obtain ⟨rfl, h2⟩ := (List.cons.injEq _ _ _ _).mp hab
        exact Or.inr ⟨as, b, h2⟩

theorem splitGo_ne_nil (p : Str) : ∀ (s : Str) (k : Nat), splitGo p s k ≠ [] := by
  intro s
  induction s with
  | nil => intro k; simp [splitGo]
  | cons c rest ih =>
    intro k
    cases k with
    | succ k => exact ih k
    | zero =>
      simp only [splitGo]
      split
      · simp
      · split
        · simp
        · simp

theorem joinWith_cons_head (sep : Str) (c : Char) (t : Str) (ts : List Str) :
    joinWith sep ((c :: t) :: ts) = c :: joinWith sep (t :: ts) := by
  cases ts <;> simp [joinWith]

theorem joinWith_nil_cons (sep : Str) (t : Str) (ts : List Str) :
    joinWith sep ([] :: t :: ts) = sep ++ joinWith sep (t :: ts) := by
  simp [joinWith]

/-- Rejoining the segments with the pattern itself recovers the scanned text
(from position `k` on). -/
theorem joinWith_splitGo (p : Str) (hp : p ≠ []) :
    ∀ (s : Str) (k : Nat), joinWith p (splitGo p s k) = s.drop k := by
  intro s
  induction s with
  | nil => intro k; simp [splitGo, joinWith]
  | cons c rest ih =>
    intro k
    cases k with
    | succ k => simpa [splitGo] using ih k
    | zero =>
      simp only [splitGo, List.drop_zero]
      split
      · rename_i hpre
        obtain ⟨t, ht⟩ := isPrefixOf_eq_true_iff.mp hpre
        obtain ⟨t0, ts0, hts⟩ : ∃ t0 ts0, splitGo p rest (p.length - 1) = t0 :: ts0 := by
          rcases h : splitGo p rest (p.length - 1) with _ | ⟨t0, ts0⟩
          · exact absurd h (splitGo_ne_nil p rest _)
          · exact ⟨t0, ts0, rfl⟩
        rw [hts, joinWith_nil_cons, ← hts, ih (p.length - 1)]
        cases p with
        | nil => exact absurd rfl hp
        | cons q qs =>
          rw [List.cons_append] at ht
          obtain ⟨rfl, h2⟩ := (List.cons.injEq _ _ _ _).mp ht
          subst h2
          simp
      · obtain ⟨t0, ts0, hts⟩ : ∃ t0 ts0, splitGo p rest 0 = t0 :: ts0 := by
          rcases h : splitGo p rest 0 with _ | ⟨t0, ts0⟩
          · exact absurd h (splitGo_ne_nil p rest _)
          · exact ⟨t0, ts0, rfl⟩
        rw [hts, joinWith_cons_head, ← hts, ih 0]
        simp

/-- Function `replaceGo` is `splitGo` followed by rejoining with the replacement. -/
theorem replaceGo_eq_joinWith (p r : Str) :
    ∀ (s : Str) (k : Nat), replaceGo p r s k = joinWith r (splitGo p s k) := by
  intro s
  induction s with
  | nil => intro k; simp [replaceGo, splitGo, joinWith]
  | cons c rest ih =>
    intro k
    cases k with
    | succ k => simpa [replaceGo, splitGo] using ih k
    | zero =>
      simp only [replaceGo, splitGo]
      split
      · obtain ⟨t0, ts0, hts⟩ : ∃ t0 ts0, splitGo p rest (p.length - 1) = t0 :: ts0 := by
          rcases h : splitGo p rest (p.length - 1) with _ | ⟨t0, ts0⟩
          · exact absurd h (splitGo_ne_nil p rest _)
          · exact ⟨t0, ts0, rfl⟩
        rw [hts, joinWith_nil_cons, ← hts, ih (p.length - 1)]
      · obtain ⟨t0, ts0, hts⟩ : ∃ t0 ts0, splitGo p rest 0 = t0 :: ts0 := by
          rcases h : splitGo p rest 0 with _ | ⟨t0, ts0⟩
          · exact absurd h (splitGo_ne_nil p rest _)
          · exact ⟨t0, ts0, rfl⟩
        rw [hts, joinWith_cons_head, ← hts, ih 0]

/-- The first segment of the decomposition is an initial run of the text. -/
theorem splitGo_head_extends (p : Str) :
    ∀ (s : Str) (t : Str) (ts : List Str), splitGo p s 0 = t :: ts → ∃ u, t ++ u = s := by
  intro s
  induction s with
  | nil =>
    intro t ts h
    simp only [splitGo, List.cons.injEq] at h
    exact ⟨[], by simp [← h.1]⟩
  | cons c rest ih =>
    intro t ts h
    simp only [splitGo] at h
    split at h
    · have h1 : ([] : Str) = t := ((List.cons.injEq _ _ _ _).mp h).1
      subst h1
      exact ⟨c :: rest, rfl⟩
    · rcases hsp : splitGo p rest 0 with _ | ⟨t0, ts0⟩
      · exact absurd hsp (splitGo_ne_nil p rest _)
      · rw [hsp] at h
        obtain ⟨rfl, _⟩ := (List.cons.injEq _ _ _ _).mp h.symm
        obtain ⟨u, hu⟩ := ih t0 ts0 hsp
        exact ⟨u, by simp [List.cons_append, hu]⟩

/-- No segment of the decomposition contains the pattern. -/
theorem not_occursIn_of_mem_splitGo (p : Str) (hp : p ≠ []) :
    ∀ (s : Str) (k : Nat) (t : Str), t ∈ splitGo p s k → occursIn p t = false := by
  intro s
  induction s with
  | nil =>
    intro k t ht
    simp only [splitGo, List.mem_singleton] at ht
    subst ht
    cases p with
    | nil => exact absurd rfl hp
    | cons q qs => simp [occursIn, List.isPrefixOf]
  | cons c rest ih =>
    intro k t ht
    cases k with
    | succ k => exact ih k t ht
    | zero =>
      simp only [splitGo] at ht
      split at ht
      · rcases List.mem_cons.mp ht with rfl | hmem
        · cases p with
          | nil => exact absurd rfl hp
          | cons q qs => simp [occursIn, List.isPrefixOf]
        · exact ih _ t hmem
      · rename_i hpre
        rcases hsp : splitGo p rest 0 with _ | ⟨t0, ts0⟩
        · exact absurd hsp (splitGo_ne_nil p rest _)
        · rw [hsp] at ht
          rcases List.mem_cons.mp ht with rfl | hmem
          · have htail : occursIn p t0 = false :=
              ih 0 t0 (by rw [hsp]; exact List.mem_cons_self _ _)
            have hhead : p.isPrefixOf (c :: t0) = false := by
              by_contra hcon
              have hpre2 : p.isPrefixOf (c :: t0) = true := by
                cases h2 : p.isPrefixOf (c :: t0)
                · exact absurd h2 hcon
                · rfl
              obtain ⟨w, hw⟩ := isPrefixOf_eq_true_iff.mp hpre2
              obtain ⟨u, hu⟩ := splitGo_head_extends p rest t0 ts0 hsp
              have : p.isPrefixOf (c :: rest) = true := by
                refine isPrefixOf_eq_true_iff.mpr ⟨w ++ u, ?_⟩
                rw [← List.append_assoc, hw, List.cons_append, hu]
              exact hpre this
            simp [occursIn, hhead, htail]
          · exact ih 0 t (by rw [hsp]; exact List.mem_cons_of_mem _ hmem)

/-- Replacing a pattern by itself is the identity. -/
theorem pyReplace_self (s p : Str) : pyReplace s p p = s := by
  cases p with
  | nil => simp [pyReplace]
  | cons q qs =>
    have hp : (q :: qs : Str) ≠ [] := by simp
    simp only [pyReplace]
    rw [if_neg (by simp), replaceGo_eq_joinWith (q :: qs) (q :: qs) s 0,
      joinWith_splitGo (q :: qs) hp s 0, List.drop_zero]

/-- If the pattern does not occur, the text is unchanged. -/
theorem pyReplace_of_not_occursIn {s p : Str} (r : Str) (h : occursIn p s = false) :
    pyReplace s p r = s := by
  cases p with
  | nil => simp [pyReplace]
  | cons q qs =>
    have main : ∀ (u : Str), occursIn (q :: qs) u = false → replaceGo (q :: qs) r u 0 = u := by
      intro u
      induction u with
      | nil => intro _; simp [replaceGo]
      | cons c rest ihr =>
        intro hu
        simp only [occursIn, Bool.or_eq_false_iff] at hu
        simp [replaceGo, hu.1, ihr hu.2]
    simp only [pyReplace]
    rw [if_neg (by simp), main s h]


/-! ### Claim C6 — the network selector -/

/-- Claim C6 (amended): lowercasing the input selects the network
("mainnet"/"mainnet-beta" → mainnet, "testnet" → testnet, "devnet" →
devnet); any other string raises a `ValueError` whose message contains the
LOWERCASED offending string (the code lowercases before formatting the
message, so the original casing is not reported — see the counterexample);
and each network maps to its fixed default RPC URL. -/
theorem c6_network_selector (s : Str) :
    ((lowerStr s = lit "mainnet" ∨ lowerStr s = lit "mainnet-beta") →
      SolanaNetwork.from_str s = .ok .mainnet) ∧
    (lowerStr s = lit "testnet" → SolanaNetwork.from_str s = .ok .testnet) ∧
    (lowerStr s = lit "devnet" → SolanaNetwork.from_str s = .ok .devnet) ∧
    (lowerStr s ≠ lit "mainnet" → lowerStr s ≠ lit "mainnet-beta" →
      lowerStr s ≠ lit "testnet" → lowerStr s ≠ lit "devnet" →
      ∃ m, SolanaNetwork.from_str s = .error ⟨.valueError, m⟩ ∧
        occursIn (lowerStr s) m = true) ∧
    SolanaNetwork.get_rpc_url .mainnet = lit "https://api.mainnet-beta.solana.com" ∧
    SolanaNetwork.get_rpc_url .testnet = lit "https://api.testnet.solana.com" ∧
    SolanaNetwork.get_rpc_url .devnet = lit "https://api.devnet.solana.com" := by
  refine ⟨?_, ?_, ?_, ?_, rfl, rfl, rfl⟩
  · rintro (h | h) <;> · simp only [SolanaNetwork.from_str]; rw [h]; rfl
  · intro h
    simp only [SolanaNetwork.from_str]
    rw [h]
    rfl
  · intro h
    simp only [SolanaNetwork.from_str]
    rw [h]
    rfl
  · intro h1 h2 h3 h4
    refine ⟨lit "Invalid network: " ++ lowerStr s ++
      lit ". Must be one of: mainnet, testnet, devnet", ?_, ?_⟩
    · simp only [SolanaNetwork.from_str]
      rw [if_neg (by simp [h1, h2]), if_neg h3, if_neg h4]
    · exact occursIn_eq_true_iff.mpr
        ⟨lit "Invalid network: ", lit ". Must be one of: mainnet, testnet, devnet", by simp⟩

/-- Witness for C6 at concrete inputs: a mixed-case valid name is accepted;
an invalid name is rejected with the lowercased string in the message. -/
theorem c6_witness :
    SolanaNetwork.from_str (lit "MainNet-BETA") = .ok .mainnet ∧
    (∃ m, SolanaNetwork.from_str (lit "Solana") = .error ⟨.valueError, m⟩ ∧
      occursIn (lowerStr (lit "Solana")) m = true) :=
  ⟨(c6_network_selector (lit "MainNet-BETA")).1 (Or.inr (by decide)),
   (c6_network_selector (lit "Solana")).2.2.2.1 (by decide) (by decide) (by decide) (by decide)⟩

/-- Claim C6 counterexample: the input "FOO" is rejected, but the error
message holds only the lowercased form "foo"; it does not contain the
offending string "FOO" as the claim asserts. -/
theorem c6_counterexample :
    SolanaNetwork.from_str (lit "FOO") =
      .error ⟨.valueError, lit "Invalid network: foo. Must be one of: mainnet, testnet, devnet"⟩ ∧
    occursIn (lit "FOO")
      (lit "Invalid network: foo. Must be one of: mainnet, testnet, devnet") = false := by
  exact ⟨rfl, by decide⟩

/-! ### Claims C1, C8, C9 — the version table and its selection -/

open VersionChecker

theorem find_rev_none_iff (e : Int) (table : List VersionInfo) :
    (table.reverse.find? (fun vi => decide (vi.epoch ≤ e)) = none) ↔
      ∀ vi ∈ table, e < vi.epoch := by
  rw [List.find?_eq_none]
  constructor
  · intro h vi hvi
    have h2 := h vi (List.mem_reverse.mpr hvi)
    simpa [not_le] using h2
  · intro h vi hvi hdec
    have h2 := h vi (List.mem_reverse.mp hvi)
    simp only [decide_eq_true_eq] at hdec
    omega

/-- On a table sorted ascending by epoch, the backwards scan of
version_checker.py:184-186 finds a row with epoch ≤ e whose epoch dominates
every qualifying row. -/
theorem find_rev_some_spec (e : Int) :
    ∀ (table : List VersionInfo), List.Sorted epochLE table →
      ∀ vi, table.reverse.find? (fun x => decide (x.epoch ≤ e)) = some vi →
        vi ∈ table ∧ vi.epoch ≤ e ∧ ∀ w ∈ table, w.epoch ≤ e → w.epoch ≤ vi.epoch := by
  intro table
  induction table using List.reverseRecOn with
  | nil => intro _ vi h; simp [List.find?] at h
  | append_singleton l a ih =>
    intro hs vi h
    obtain ⟨hl, -, hrel⟩ := List.pairwise_append.mp hs
    rw [List.reverse_append, List.reverse_singleton, List.singleton_append] at h
    by_cases hc : a.epoch ≤ e
    · rw [List.find?_cons_of_pos _ (by simpa using hc)] at h
      obtain rfl : a = vi := by simpa using h
      refine ⟨List.mem_append_right _ (List.mem_singleton_self a), hc, ?_⟩
      intro w hw _
      rcases List.mem_append.mp hw with hwl | hwa
      · exact hrel w hwl a (List.mem_singleton_self a)
      · rw [List.mem_singleton.mp hwa]
    · rw [List.find?_cons_of_neg _ (by simpa using hc)] at h
      obtain ⟨hmem, hle, hmax⟩ := ih hl vi h
      refine ⟨List.mem_append_left _ hmem, hle, ?_⟩
      intro w hw hwe
      rcases List.mem_append.mp hw with hwl | hwa
      · exact hmax w hwl hwe
      · exact absurd (List.mem_singleton.mp hwa ▸ hwe) hc

/-- Python `max(..., key=epoch)` on a nonempty list returns a member whose
epoch dominates the whole list. -/
theorem pyMaxByEpoch_spec (table : List VersionInfo) (hne : table ≠ []) :
    ∃ vi, pyMaxByEpoch table = some vi ∧ vi ∈ table ∧ ∀ w ∈ table, w.epoch ≤ vi.epoch := by
  cases table with
  | nil => exact absurd rfl hne
  | cons v vs =>
    have aux : ∀ (us : List VersionInfo) (u : VersionInfo),
        (us.foldl (fun acc x => if acc.epoch < x.epoch then x else acc) u) ∈ u :: us ∧
        ∀ w ∈ u :: us,
          w.epoch ≤ (us.foldl (fun acc x => if acc.epoch < x.epoch then x else acc) u).epoch := by
      intro us
      induction us with
      | nil =>
        intro u
        refine ⟨List.mem_singleton_self u, ?_⟩
        intro w hw
        rw [List.mem_singleton.mp hw]
        exact le_refl _
      | cons x us ihs =>
        intro u
        rw [List.foldl_cons]
        obtain ⟨hmem, hbound⟩ := ihs (if u.epoch < x.epoch then x else u)
        have hstep_mem : (if u.epoch < x.epoch then x else u) ∈ u :: x :: us := by
          by_cases hux : u.epoch < x.epoch
          · simp [hux]
          · simp [hux]
        have hu_le : u.epoch ≤ (if u.epoch < x.epoch then x else u).epoch := by
          by_cases hux : u.epoch < x.epoch
          · simp [hux]; omega
          · simp [hux]
        have hx_le : x.epoch ≤ (if u.epoch < x.epoch then x else u).epoch := by
          by_cases hux : u.epoch < x.epoch
          · simp [hux]
          · simp [hux]; omega
        constructor
        · rcases List.mem_cons.mp hmem with heq | hmem2
          · rw [heq]; exact hstep_mem
          · exact List.mem_cons_of_mem _ (List.mem_cons_of_mem _ hmem2)
        · intro w hw
          have hhead := hbound _ (List.mem_cons_self _ _)
          rcases List.mem_cons.mp hw with rfl | hw2
          · exact le_trans hu_le hhead
          · rcases List.mem_cons.mp hw2 with rfl | hw3
            · exact le_trans hx_le hhead
            · exact hbound w (List.mem_cons_of_mem _ hw3)
    obtain ⟨hmem, hbound⟩ := aux vs v
    exact ⟨_, rfl, hmem, hbound⟩

/-- The parsed table is sorted ascending by epoch. -/
theorem parse_version_table_sorted (tables : List HtmlTable) :
    List.Sorted epochLE (parse_version_table tables) := by
  simp only [parse_version_table]
  exact List.sorted_insertionSort epochLE _

/-- Claim C1 (amended): for every parsed version table and every known
NONZERO current epoch, `get_required_version` returns the `agave_min` of a
row with epoch ≤ the current epoch whose epoch dominates every qualifying
row, and returns none when no row has epoch ≤ the current epoch; for the
rows [(100,a),(200,b),(300,c)], epoch 250 yields b and epoch 50 yields none.
(The frozen claim also covers the known epoch 0; there the code's truthiness
test takes the unknown-epoch branch instead — see the counterexample and
claim C9.) -/
theorem c1_version_selection (tables : List HtmlTable) (st : CheckerState) (e : Int)
    (hst : st.current_epoch = some e) (he : e ≠ 0)
    (hne : parse_version_table tables ≠ []) :
    ((∃ vi ∈ parse_version_table tables,
        (get_required_version tables st).1 = some vi.agave_min ∧ vi.epoch ≤ e ∧
        ∀ w ∈ parse_version_table tables, w.epoch ≤ e → w.epoch ≤ vi.epoch) ∨
      ((get_required_version tables st).1 = none ∧
        ∀ vi ∈ parse_version_table tables, e < vi.epoch)) ∧
    selectRequiredVersion (parse_version_table [exampleCriteria]) (some 250) = some (lit "b") ∧
    selectRequiredVersion (parse_version_table [exampleCriteria]) (some 50) = none := by
  refine ⟨?_, by decide, by decide⟩
  have hsorted := parse_version_table_sorted tables
  have hfst : (get_required_version tables st).1 =
      selectRequiredVersion (parse_version_table tables) (some e) := by
    simp only [get_required_version]
    rw [if_neg (by simpa [List.isEmpty_iff] using hne), hst]
  have hsel : selectRequiredVersion (parse_version_table tables) (some e) =
      ((parse_version_table tables).reverse.find?
        (fun vi => decide (vi.epoch ≤ e))).map VersionInfo.agave_min := by
    simp only [selectRequiredVersion, epochTruthy]
    rw [if_pos (by simpa using he)]
  rw [hfst, hsel]
  cases hf : (parse_version_table tables).reverse.find? (fun vi => decide (vi.epoch ≤ e)) with
  | none =>
    exact Or.inr ⟨by simp, (find_rev_none_iff e _).mp hf⟩
  | some vi =>
    obtain ⟨hmem, hle, hmax⟩ := find_rev_some_spec e _ hsorted vi hf
    exact Or.inl ⟨vi, hmem, by simp, hle, hmax⟩

/-- Witness for C1: the claim's own example, run through the theorem at
epoch 250. -/
theorem c1_witness :
    selectRequiredVersion (parse_version_table [exampleCriteria]) (some 250) = some (lit "b") ∧
    selectRequiredVersion (parse_version_table [exampleCriteria]) (some 50) = none :=
  (c1_version_selection [exampleCriteria] ⟨[], some 250⟩ 250 rfl (by decide) (by decide)).2

/-- Claim C1 counterexample: with the parsed one-row table (epoch 100) and
the KNOWN current epoch 0, no row has epoch ≤ 0, so the claim demands none;
the code's `if self.current_epoch:` treats 0 as "no epoch", takes the
latest-row branch, and returns "2.0.0". -/
theorem c1_counterexample :
    (∀ vi ∈ parse_version_table [oneRowCriteria], ¬ (vi.epoch ≤ 0)) ∧
    (get_required_version [oneRowCriteria] ⟨[], some 0⟩).1 = some (lit "2.0.0") := by
  exact ⟨by decide, by decide⟩

/-- Claim C9: with the known current epoch exactly 0 and a nonempty parsed
table, `get_required_version` takes the unknown-epoch branch and returns the
`agave_min` of a maximal-epoch row. -/
theorem c9_epoch_zero_latest (tables : List HtmlTable) (st : CheckerState)
    (h0 : st.current_epoch = some 0) (hne : parse_version_table tables ≠ []) :
    ∃ vi ∈ parse_version_table tables,
      (get_required_version tables st).1 = some vi.agave_min ∧
      ∀ w ∈ parse_version_table tables, w.epoch ≤ vi.epoch := by
  have hfst : (get_required_version tables st).1 =
      selectRequiredVersion (parse_version_table tables) (some 0) := by
    simp only [get_required_version]
    rw [if_neg (by simpa [List.isEmpty_iff] using hne), h0]
  obtain ⟨vi, hmax, hmem, hbound⟩ := pyMaxByEpoch_spec (parse_version_table tables) hne
  refine ⟨vi, hmem, ?_, hbound⟩
  rw [hfst]
  simp [selectRequiredVersion, epochTruthy, hmax]

/-- Witness for C9: the three-row example at epoch 0 returns the epoch-300
minimum. -/
theorem c9_witness :
    ∃ vi ∈ parse_version_table [exampleCriteria],
      (get_required_version [exampleCriteria] ⟨[], some 0⟩).1 = some vi.agave_min ∧
      ∀ w ∈ parse_version_table [exampleCriteria], w.epoch ≤ vi.epoch :=
  c9_epoch_zero_latest [exampleCriteria] ⟨[], some 0⟩ rfl (by decide)

/-- Claim C8: the parsed version table is always sorted ascending by epoch;
a row whose epoch cell fails integer parsing is skipped without aborting the
parse (removing it changes nothing); and selection in `get_required_version`
leaves the stored table (and the stored epoch) exactly as parsing set them. -/
theorem c8_table_invariants :
    (∀ tables, List.Sorted epochLE (parse_version_table tables)) ∧
    (∀ (hdrs : List Str) (hd : List Str) (pre post : List (List Str)) (badRow : List Str),
      parseRow badRow = none →
      parse_version_table [⟨hdrs, hd :: (pre ++ badRow :: post)⟩] =
        parse_version_table [⟨hdrs, hd :: (pre ++ post)⟩]) ∧
    (∀ tables st,
      ((get_required_version tables st).2).version_table = parse_version_table tables ∧
      ((get_required_version tables st).2).current_epoch = st.current_epoch) := by
  refine ⟨parse_version_table_sorted, ?_, ?_⟩
  · intro hdrs hd pre post badRow hbad
    simp only [parse_version_table, List.map, List.flatten]
    by_cases hmatch : (lit "Epoch") ∈ hdrs.map pyStrip ∧ (lit "Agave Min.") ∈ hdrs.map pyStrip
    · simp [hmatch.1, hmatch.2, List.filterMap_append, List.filterMap_cons, hbad]
    · rw [not_and_or] at hmatch
      rcases hmatch with hm | hm <;> simp [hm]
  · intro tables st
    simp only [get_required_version]
    by_cases hemp : (parse_version_table tables).isEmpty = true <;> simp [hemp]

/-- Witness for C8: removing a concrete unparseable row does not change the
parsed table. -/
theorem c8_witness :
    parse_version_table [⟨[lit "Epoch", lit "Agave Min."],
      [[], [lit "100", lit "a", lit "-", lit "f", lit "-"],
       [lit "bad", lit "x", lit "-", lit "f", lit "-"],
       [lit "200", lit "b", lit "-", lit "f", lit "-"]]⟩] =
    parse_version_table [⟨[lit "Epoch", lit "Agave Min."],
      [[], [lit "100", lit "a", lit "-", lit "f", lit "-"],
       [lit "200", lit "b", lit "-", lit "f", lit "-"]]⟩] :=
  c8_table_invariants.2.1 [lit "Epoch", lit "Agave Min."] []
    [[lit "100", lit "a", lit "-", lit "f", lit "-"]]
    [[lit "200", lit "b", lit "-", lit "f", lit "-"]]
    [lit "bad", lit "x", lit "-", lit "f", lit "-"] (by decide)

/-! ### Claims C4, C5, C10 — update_yaml_version error handling and framing -/

/-- A successful `get_current_version` implies the file text itself loads. -/
theorem loadAll_ok_of_gcv {loadAll : Str → Except Str (List YVal)} {content : Str} {v : YVal}
    (h : get_current_version loadAll (some content) = .ok v) :
    ∃ docs, loadAll content = .ok docs := by
  cases hl : loadAll content with
  | error e => simp [get_current_version, hl] at h
  | ok docs => exact ⟨docs, rfl⟩

/-- Claim C4: when the substituted text does not re-parse as YAML, the call
raises (a `ValueError` wrapping "Generated invalid YAML") and the file state
is exactly the one before the call — the write never happens. -/
theorem c4_invalid_substitution_aborts (loadAll : Str → Except Str (List YVal))
    (content new_version em : Str) (cur : YVal)
    (hcur : get_current_version loadAll (some content) = .ok cur)
    (hbad : loadAll (applyPatterns (pyStr cur) new_version content) = .error em) :
    update_yaml_version loadAll new_version (some content) =
      (.error ⟨.valueError, lit "Error updating YAML file: " ++
        (lit "Generated invalid YAML: " ++ em)⟩, some content) := by
  simp only [update_yaml_version, hcur, hbad]

/-- Witness for C4: a concrete file whose oracle accepts only the original
text; the substituted text is rejected, the call errors, the file keeps its
old content. -/
theorem c4_witness :
    update_yaml_version loadAllStrict (lit "2.0") (some contentPlain) =
      (.error ⟨.valueError, lit "Error updating YAML file: " ++
        (lit "Generated invalid YAML: " ++ lit "mapping values are not allowed here")⟩,
       some contentPlain) :=
  c4_invalid_substitution_aborts loadAllStrict contentPlain (lit "2.0")
    (lit "mapping values are not allowed here") (.ystr (lit "1.0")) rfl rfl

/-- Claim C5: when none of the three quoting patterns occurs in the raw
text, `update_yaml_version` completes without error and the file content
after the call is byte-identical to the content before it. -/
theorem c5_no_pattern_no_op (loadAll : Str → Except Str (List YVal))
    (content new_version : Str) (cur : YVal)
    (hcur : get_current_version loadAll (some content) = .ok cur)
    (hnone : ∀ p ∈ tagPatterns (pyStr cur), occursIn p content = false) :
    update_yaml_version loadAll new_version (some content) = (.ok (), some content) := by
  obtain ⟨docs, hdocs⟩ := loadAll_ok_of_gcv hcur
  have hfind : (tagPatterns (pyStr cur)).find? (fun p => occursIn p content) = none :=
    List.find?_eq_none.mpr (fun p hp => by simp [hnone p hp])
  have happ : applyPatterns (pyStr cur) new_version content = content := by
    simp [applyPatterns, hfind]
  simp only [update_yaml_version, hcur, happ, hdocs]

/-- Witness for C5: a config whose tag is found by the YAML parser but whose
raw text (`tag:   1.0`, extra blanks) matches none of the three patterns:
the call succeeds and the text is unchanged. -/
theorem c5_witness :
    update_yaml_version loadAllSpaced (lit "9.9") (some contentSpaced) =
      (.ok (), some contentSpaced) :=
  c5_no_pattern_no_op loadAllSpaced contentSpaced (lit "9.9") (.ystr (lit "1.0")) rfl (by decide)

/-- Claim C10: whatever fails inside `update_yaml_version` — the file being
absent, `get_current_version` failing (bad YAML, missing key, wrong shapes),
or the re-validation rejecting the substituted text — the call's error is
always a `ValueError` whose message starts with "Error updating YAML
file: ". -/
theorem c10_update_raises_only_valueError (loadAll : Str → Except Str (List YVal))
    (new_version : Str) (file : Option Str) (e : PyErr)
    (h : (update_yaml_version loadAll new_version file).1 = .error e) :
    e.kind = .valueError ∧
    (lit "Error updating YAML file: ").isPrefixOf e.msg = true := by
  have hpre : ∀ m : Str, (lit "Error updating YAML file: ").isPrefixOf
      (lit "Error updating YAML file: " ++ m) = true :=
    fun m => isPrefixOf_eq_true_iff.mpr ⟨m, rfl⟩
  cases file with
  | none =>
    simp only [update_yaml_version, Except.error.injEq] at h
    subst h
    exact ⟨rfl, hpre _⟩
  | some content =>
    cases hg : get_current_version loadAll (some content) with
    | error eg =>
      simp only [update_yaml_version, hg, Except.error.injEq] at h
      subst h
      exact ⟨rfl, hpre _⟩
    | ok cur =>
      cases hl : loadAll (applyPatterns (pyStr cur) new_version content) with
      | error em =>
        simp only [update_yaml_version, hg, hl, Except.error.injEq] at h
        subst h
        exact ⟨rfl, hpre _⟩
      | ok docs =>
        simp [update_yaml_version, hg, hl] at h

/-- Witness for C10: the absent-file failure surfaces as a `ValueError` with
the wrapping prefix. -/
theorem c10_witness :
    (⟨.valueError, lit "Error updating YAML file: No such file or directory"⟩ : PyErr).kind
        = .valueError ∧
    (lit "Error updating YAML file: ").isPrefixOf
      (lit "Error updating YAML file: No such file or directory") = true :=
  c10_update_raises_only_valueError loadAllStrict (lit "2.0") none
    ⟨.valueError, lit "Error updating YAML file: No such file or directory"⟩ rfl

/-! ### Claims C3, C7, C2 — the substitution and the orchestrator -/

theorem tagPatterns_ne_nil (cur : Str) : ∀ p ∈ tagPatterns cur, p ≠ [] := by
  intro p hp hnil
  rcases (by simpa [tagPatterns] using hp : p = lit "tag: " ++ cur ∨
      p = lit "tag: \"" ++ cur ++ lit "\"" ∨ p = lit "tag: '" ++ cur ++ lit "'") with
    rfl | rfl | rfl
  · exact absurd (List.append_eq_nil.mp hnil).1 (by decide)
  · exact absurd (List.append_eq_nil.mp hnil).2 (by decide)
  · exact absurd (List.append_eq_nil.mp hnil).2 (by decide)

/-- Claim C3 (amended): the substitution step picks the FIRST of the three
quoting patterns occurring in the text and replaces EVERY occurrence of it
(Python `str.replace` replaces all, not only the first — see the
counterexample) with `tag: v<new>` in the same quoting style (the current
version holding no quote character); every byte outside the replaced
occurrences — comments, key order, other documents — is preserved: the text
splits into segments free of the pattern joined by the pattern, and the
result is the same segments joined by the replacement. -/
theorem c3_substitution_shape (current new_version content : Str)
    (hdq : ¬ '"' ∈ current) (hsq : ¬ '\'' ∈ current) :
    ∃ p r parts,
      ((p = lit "tag: " ++ current ∧ r = lit "tag: v" ++ new_version) ∨
       (p = lit "tag: \"" ++ current ++ lit "\"" ∧
        r = lit "tag: \"v" ++ new_version ++ lit "\"") ∨
       (p = lit "tag: '" ++ current ++ lit "'" ∧
        r = lit "tag: 'v" ++ new_version ++ lit "'")) ∧
      joinWith p parts = content ∧
      applyPatterns current new_version content = joinWith r parts ∧
      ∀ t ∈ parts, occursIn p t = false := by
  cases hfind : (tagPatterns current).find? (fun p => occursIn p content) with
  | none =>
    refine ⟨lit "tag: " ++ current, lit "tag: v" ++ new_version, [content],
      Or.inl ⟨rfl, rfl⟩, rfl, by simp [applyPatterns, hfind, joinWith], ?_⟩
    intro t ht
    rw [List.mem_singleton.mp ht]
    have h1 := List.find?_eq_none.mp hfind (lit "tag: " ++ current)
      (by simp [tagPatterns])
    simpa using h1
  | some p =>
    have hmem : p ∈ tagPatterns current := List.mem_of_find?_eq_some hfind
    have hpne : p ≠ [] := tagPatterns_ne_nil current p hmem
    refine ⟨p, styleReplacement p new_version, splitGo p content 0, ?_, ?_, ?_, ?_⟩
    · rcases (by simpa [tagPatterns] using hmem : p = lit "tag: " ++ current ∨
          p = lit "tag: \"" ++ current ++ lit "\"" ∨
          p = lit "tag: '" ++ current ++ lit "'") with rfl | rfl | rfl
      · refine Or.inl ⟨rfl, ?_⟩
        have h1 : ¬ '"' ∈ (lit "tag: " ++ current) := by
          intro h
          rcases List.mem_append.mp h with h | h
          · exact absurd h (by decide)
          · exact hdq h
        have h2 : ¬ '\'' ∈ (lit "tag: " ++ current) := by
          intro h
          rcases List.mem_append.mp h with h | h
          · exact absurd h (by decide)
          · exact hsq h
        rw [styleReplacement, if_neg h1, if_neg h2]
      · refine Or.inr (Or.inl ⟨rfl, ?_⟩)
        have h1 : '"' ∈ (lit "tag: \"" ++ current ++ lit "\"") :=
          List.mem_append.mpr (Or.inr (by decide))
        rw [styleReplacement, if_pos h1]
      · refine Or.inr (Or.inr ⟨rfl, ?_⟩)
        have h1 : ¬ '"' ∈ (lit "tag: '" ++ current ++ lit "'") := by
          intro h
          rcases List.mem_append.mp h with h | h
          · rcases List.mem_append.mp h with h | h
            · exact absurd h (by decide)
            · exact hdq h
          · exact absurd h (by decide)
        have h2 : '\'' ∈ (lit "tag: '" ++ current ++ lit "'") :=
          List.mem_append.mpr (Or.inl (List.mem_append.mpr (Or.inl (by decide))))
        rw [styleReplacement, if_neg h1, if_pos h2]
    · rw [joinWith_splitGo p hpne content 0, List.drop_zero]
    · simp only [applyPatterns, hfind, pyReplace]
      rw [if_neg (by simpa [List.isEmpty_iff] using hpne)]
      exact replaceGo_eq_joinWith p (styleReplacement p new_version) content 0
    · exact fun t ht => not_occursIn_of_mem_splitGo p hpne content 0 t ht

/-- Witness for C3: the decomposition at a config holding `tag: 1.0` twice. -/
theorem c3_witness :
    ∃ p r parts,
      ((p = lit "tag: " ++ lit "1.0" ∧ r = lit "tag: v" ++ lit "2.0") ∨
       (p = lit "tag: \"" ++ lit "1.0" ++ lit "\"" ∧
        r = lit "tag: \"v" ++ lit "2.0" ++ lit "\"") ∨
       (p = lit "tag: '" ++ lit "1.0" ++ lit "'" ∧
        r = lit "tag: 'v" ++ lit "2.0" ++ lit "'")) ∧
      joinWith p parts = contentTwoTags ∧
      applyPatterns (lit "1.0") (lit "2.0") contentTwoTags = joinWith r parts ∧
      ∀ t ∈ parts, occursIn p t = false :=
  c3_substitution_shape (lit "1.0") (lit "2.0") contentTwoTags (by decide) (by decide)

/-- Claim C3 counterexample: on a file holding `tag: 1.0` twice (only the
second document's field is the decoy), the claim demands that only the first
occurrence change; the code changes both. -/
theorem c3_counterexample :
    (update_yaml_version loadAllTwoTags (lit "2.0") (some contentTwoTags)).2 =
      some contentTwoTagsBoth ∧
    some contentTwoTagsBoth ≠ some contentTwoTagsFirstOnly := by
  exact ⟨rfl, by decide⟩

/-- On a current version of the shape `v<X>` (X quote-free), every candidate
pattern's chosen replacement is the pattern itself, so the substitution step
is the identity. -/
theorem applyPatterns_fixed (X c : Str) (hdq : ¬ '"' ∈ X) (hsq : ¬ '\'' ∈ X) :
    applyPatterns ('v' :: X) X c = c := by
  have hstep : lit "tag: " ++ ('v' :: X) = lit "tag: v" ++ X := by
    rw [← List.singleton_append, ← List.append_assoc]
    rfl
  have hstep2 : lit "tag: \"" ++ ('v' :: X) = lit "tag: \"v" ++ X := by
    rw [← List.singleton_append, ← List.append_assoc]
    rfl
  have hstep3 : lit "tag: '" ++ ('v' :: X) = lit "tag: 'v" ++ X := by
    rw [← List.singleton_append, ← List.append_assoc]
    rfl
  have hrep : ∀ p ∈ tagPatterns ('v' :: X), styleReplacement p X = p := by
    intro p hp
    rcases (by simpa [tagPatterns] using hp : p = lit "tag: " ++ ('v' :: X) ∨
        p = lit "tag: \"" ++ ('v' :: X) ++ lit "\"" ∨
        p = lit "tag: '" ++ ('v' :: X) ++ lit "'") with rfl | rfl | rfl
    · have h1 : ¬ '"' ∈ (lit "tag: " ++ ('v' :: X)) := by
        intro h
        rcases List.mem_append.mp h with h | h
        · exact absurd h (by decide)
        · rcases List.mem_cons.mp h with h | h
          · exact absurd h (by decide)
          · exact hdq h
      have h2 : ¬ '\'' ∈ (lit "tag: " ++ ('v' :: X)) := by
        intro h
        rcases List.mem_append.mp h with h | h
        · exact absurd h (by decide)
        · rcases List.mem_cons.mp h with h | h
          · exact absurd h (by decide)
          · exact hsq h
      rw [styleReplacement, if_neg h1, if_neg h2, hstep]
    · have h1 : '"' ∈ (lit "tag: \"" ++ ('v' :: X) ++ lit "\"") :=
        List.mem_append.mpr (Or.inr (by decide))
      rw [styleReplacement, if_pos h1, hstep2]
    · have h1 : ¬ '"' ∈ (lit "tag: '" ++ ('v' :: X) ++ lit "'") := by
        intro h
        rcases List.mem_append.mp h with h | h
        · rcases List.mem_append.mp h with h | h
          · exact absurd h (by decide)
          · rcases List.mem_cons.mp h with h | h
            · exact absurd h (by decide)
            · exact hdq h
        · exact absurd h (by decide)
      have h2 : '\'' ∈ (lit "tag: '" ++ ('v' :: X) ++ lit "'") :=
        List.mem_append.mpr (Or.inl (List.mem_append.mpr (Or.inl (by decide))))
      rw [styleReplacement, if_neg h1, if_pos h2, hstep3]
  cases hfind : (tagPatterns ('v' :: X)).find? (fun p => occursIn p c) with
  | none => simp [applyPatterns, hfind]
  | some p =>
    have hmem := List.mem_of_find?_eq_some hfind
    simp only [applyPatterns, hfind]
    rw [hrep p hmem, pyReplace_self]

/-- Claim C7 (amended): writing version X twice yields the same final
content as writing it once, PROVIDED the file written by the first call
parses to the tag `v<X>` (the normal case: the substitution reached the real
tag field) and X holds no quote character.  Then the second call succeeds
and leaves the content unchanged.  Without the proviso the second call can
rewrite the file again — see the counterexample, where the first
substitution hit a decoy occurrence instead of the tag field. -/
theorem c7_idempotent_once_tag_updated (loadAll : Str → Except Str (List YVal))
    (X : Str) (file : Option Str) (c1 : Str)
    (hdq : ¬ '"' ∈ X) (hsq : ¬ '\'' ∈ X)
    (_hfirst : update_yaml_version loadAll X file = (.ok (), some c1))
    (h2 : get_current_version loadAll (some c1) = .ok (.ystr ('v' :: X))) :
    update_yaml_version loadAll X (some c1) = (.ok (), some c1) := by
  obtain ⟨docs, hdocs⟩ := loadAll_ok_of_gcv h2
  have happ : applyPatterns (pyStr (.ystr ('v' :: X))) X c1 = c1 :=
    applyPatterns_fixed X c1 hdq hsq
  simp only [update_yaml_version, h2, pyStr] at happ ⊢
  simp only [happ, hdocs]

/-- Witness for C7: updating `contentPlain` to 2.0 and updating the result
again — the second call returns the first call's bytes unchanged. -/
theorem c7_witness :
    update_yaml_version loadAllPlain (lit "2.0") (some contentPlainV2) =
      (.ok (), some contentPlainV2) :=
  c7_idempotent_once_tag_updated loadAllPlain (lit "2.0") (some contentPlain) contentPlainV2
    (by decide) (by decide) rfl rfl

/-- Claim C7 counterexample: on `contentDecoy` (real tag double-quoted, a
decoy `tag: 1.0` inside a single-quoted scalar) the first call rewrites only
the decoy; the second call then rewrites the real tag field: calling
update twice does not leave the file as calling it once did. -/
theorem c7_counterexample :
    update_yaml_version loadAllDecoy (lit "2.0") (some contentDecoy) =
      (.ok (), some contentDecoy1) ∧
    update_yaml_version loadAllDecoy (lit "2.0") (some contentDecoy1) =
      (.ok (), some contentDecoy2) ∧
    contentDecoy2 ≠ contentDecoy1 := by
  exact ⟨rfl, rfl, by decide⟩

/-- Claim C2 (amended): `check_and_update` obtains the current version by
removing EVERY occurrence of "v" from the tag string (Python
`.replace('v','')`, not the claimed stripping of exactly one leading "v" —
see the counterexample).  When the v-stripped string equals the required
version it reports (required, stripped, changed=false) and leaves the file
untouched; when it differs it performs the file update and reports
(required, stripped, changed=true). -/
theorem c2_check_and_update (loadAll : Str → Except Str (List YVal))
    (tables : List HtmlTable) (st : CheckerState) (content r s : Str)
    (hreq : (get_required_version tables st).1 = some r) (hr : r ≠ [])
    (htag : get_current_version loadAll (some content) = .ok (.ystr s)) :
    (pyReplace s (lit "v") [] = r →
      check_and_update loadAll tables st (some content) =
        (.ok (r, pyReplace s (lit "v") [], false), some content,
          (get_required_version tables st).2)) ∧
    (pyReplace s (lit "v") [] ≠ r →
      ∀ docs, loadAll (applyPatterns s r content) = .ok docs →
      check_and_update loadAll tables st (some content) =
        (.ok (r, pyReplace s (lit "v") [], true), some (applyPatterns s r content),
          (get_required_version tables st).2)) := by
  rcases hgr : get_required_version tables st with ⟨req, st2⟩
  rw [hgr] at hreq
  simp only at hreq
  subst hreq
  constructor
  · intro heq
    simp only [check_and_update, hgr, htag]
    rw [if_neg (by simpa [List.isEmpty_iff] using hr), if_pos heq]
  · intro hne docs hdocs
    have hupd : update_yaml_version loadAll r (some content) =
        (.ok (), some (applyPatterns s r content)) := by
      simp only [update_yaml_version, htag, pyStr, hdocs]
    simp only [check_and_update, hgr, htag, hupd]
    rw [if_neg (by simpa [List.isEmpty_iff] using hr), if_neg hne]

/-- Witness for C2: tag "v2.1.13" against required "2.1.13" — the stripped
current equals the requirement, the report is changed=false and the file is
untouched. -/
theorem c2_witness :
    check_and_update loadAll2113 [v2113Criteria] ⟨[], some 5⟩ (some content2113) =
      (.ok (lit "2.1.13", lit "2.1.13", false), some content2113,
        (get_required_version [v2113Criteria] ⟨[], some 5⟩).2) :=
  (c2_check_and_update loadAll2113 [v2113Criteria] ⟨[], some 5⟩ content2113
    (lit "2.1.13") (lit "v2.1.13") (by decide) (by decide) rfl).1 (by decide)

/-- Claim C2 counterexample: tag "v1.0-dev", required "1.0-dev".  Stripping
exactly one leading "v" gives "1.0-dev" = required, so the claim demands
(required, "1.0-dev", changed=false) with no update; the code's
`.replace('v','')` also deletes the "v" of "-dev", yielding "1.0-de" ≠
required, and it reports changed=true. -/
theorem c2_counterexample :
    specStripLeadingV (lit "v1.0-dev") = lit "1.0-dev" ∧
    (check_and_update loadAllDev [devCriteria] ⟨[], some 5⟩ (some contentDev)).1 =
      .ok (lit "1.0-dev", lit "1.0-de", true) := by
  exact ⟨rfl, rfl⟩
